import Mathlib

/-!
Verification of the sketch/annotation engine of `scetchboard`
(`src/components/ui/NotesList.tsx` SketchPad component, `src/lib/sketch-types.ts`).

Shallow embedding conventions:
* JavaScript numbers are modelled as `ℚ` (the claims under study are structural;
  no floating-point rounding behaviour is at stake).
* The document model (`Point`, `Stroke`, `TextElement`, `SketchState`) is
  transcribed from `sketch-types.ts`.
* `JSON.stringify`/`JSON.parse` are platform primitives; the serialization
  boundary is modelled at the level of the JSON value tree (`Json`): `serialize`
  builds the tree `JSON.stringify` walks, and a parse failure of the input
  string is the `malformed` case of `LoadInput`.
-/

namespace Sketch

/-- A world-space point, from `sketch-types.ts` (`interface Point`). -/
structure Point where
  x : ℚ
  y : ℚ
deriving DecidableEq, Repr

/-- A committed stroke, from `sketch-types.ts` (`interface Stroke`). -/
structure Stroke where
  id : String
  points : List Point
  color : String
  width : ℚ
deriving DecidableEq, Repr

/-- A committed text element, from `sketch-types.ts` (`interface TextElement`). -/
structure TextElement where
  id : String
  text : String
  position : Point
  color : String
  fontSize : ℚ
deriving DecidableEq, Repr

/-- The sketch document, from `sketch-types.ts` (`interface SketchState`). -/
structure SketchState where
  strokes : List Stroke
  textElements : List TextElement
  canvasWidth : ℚ
  canvasHeight : ℚ
deriving DecidableEq, Repr

/-- Transcribes `createEmptyState` from `sketch-types.ts`. -/
def createEmptyState (width height : ℚ) : SketchState :=
  { strokes := [], textElements := [], canvasWidth := width, canvasHeight := height }

/-- Transcribes `DEFAULT_PEN_WIDTH` from `sketch-types.ts`. -/
def DEFAULT_PEN_WIDTH : ℚ := 2

/-- Transcribes `DEFAULT_FONT_SIZE` from `sketch-types.ts`. -/
def DEFAULT_FONT_SIZE : ℚ := 16

/-- Transcribes `ERASER_PROXIMITY` from `sketch-types.ts`. -/
def ERASER_PROXIMITY : ℚ := 10

/-- Transcribes `MIN_CANVAS_WIDTH` from `NotesList.tsx`. -/
def MIN_CANVAS_WIDTH : ℚ := 200

/-- Transcribes `MIN_CANVAS_HEIGHT` from `NotesList.tsx`. -/
def MIN_CANVAS_HEIGHT : ℚ := 150

/-- Transcribes `MAX_HISTORY` from `NotesList.tsx`. -/
def MAX_HISTORY : Nat := 50

/-! ## JSON value trees

The engine persists the document with `JSON.stringify(state)` and restores it
with `JSON.parse(sketchData)`.  Both operate on JSON value trees; `Json` is
that tree. -/

/-- A JSON value, the data `JSON.parse` produces and `JSON.stringify` consumes. -/
inductive Json where
  | null
  | bool (b : Bool)
  | num (q : ℚ)
  | str (s : String)
  | arr (elems : List Json)
  | obj (fields : List (String × Json))
deriving Repr

/-- Transcribes `JSON.stringify` of a `Point` (field order `x`, `y` as in the interface). -/
def encodePoint (p : Point) : Json :=
  .obj [("x", .num p.x), ("y", .num p.y)]

/-- Transcribes `JSON.stringify` of a `Stroke` (field order as constructed in `handlePointerUp`). -/
def encodeStroke (s : Stroke) : Json :=
  .obj [("id", .str s.id), ("points", .arr (s.points.map encodePoint)),
        ("color", .str s.color), ("width", .num s.width)]

/-- Transcribes `JSON.stringify` of a `TextElement` (field order as constructed in `commitTextInput`). -/
def encodeTextElement (t : TextElement) : Json :=
  .obj [("id", .str t.id), ("text", .str t.text), ("position", encodePoint t.position),
        ("color", .str t.color), ("fontSize", .num t.fontSize)]

/-- Transcribes `serialize`: the JSON tree of `JSON.stringify(state)` in `notifyChange`
(field order as in `createEmptyState`). -/
def serialize (d : SketchState) : Json :=
  .obj [("strokes", .arr (d.strokes.map encodeStroke)),
        ("textElements", .arr (d.textElements.map encodeTextElement)),
        ("canvasWidth", .num d.canvasWidth),
        ("canvasHeight", .num d.canvasHeight)]

/-- Field lookup in a JSON object (first binding wins, as in a JS object
where `JSON.stringify` never emits duplicate keys). -/
def getField (fields : List (String × Json)) (k : String) : Option Json :=
  match fields with
  | [] => none
  | (k', v) :: rest => if k' = k then some v else getField rest k

/-- Read a JSON value as a number. -/
def asNum : Json → Option ℚ
  | .num q => some q
  | _ => none

/-- Read a JSON value as a string. -/
def asStr : Json → Option String
  | .str s => some s
  | _ => none

/-- Shape-read of a `Point` per the `sketch-types.ts` declaration. -/
def decodePoint : Json → Option Point
  | .obj fields => do
    let x ← getField fields "x" >>= asNum
    let y ← getField fields "y" >>= asNum
    pure ⟨x, y⟩
  | _ => none

/-- Shape-read of a list of points. -/
def decodePoints : List Json → Option (List Point)
  | [] => some []
  | j :: rest => do
    let p ← decodePoint j
    let ps ← decodePoints rest
    pure (p :: ps)

/-- Shape-read of a `Stroke` per the `sketch-types.ts` declaration. -/
def decodeStroke : Json → Option Stroke
  | .obj fields => do
    let id ← getField fields "id" >>= asStr
    let pts ← (match getField fields "points" with
               | some (.arr js) => decodePoints js
               | _ => none)
    let color ← getField fields "color" >>= asStr
    let width ← getField fields "width" >>= asNum
    pure ⟨id, pts, color, width⟩
  | _ => none

/-- Shape-read of a list of strokes. -/
def decodeStrokes : List Json → Option (List Stroke)
  | [] => some []
  | j :: rest => do
    let s ← decodeStroke j
    let ss ← decodeStrokes rest
    pure (s :: ss)

/-- Shape-read of a `TextElement` per the `sketch-types.ts` declaration. -/
def decodeTextElement : Json → Option TextElement
  | .obj fields => do
    let id ← getField fields "id" >>= asStr
    let text ← getField fields "text" >>= asStr
    let pos ← getField fields "position" >>= decodePoint
    let color ← getField fields "color" >>= asStr
    let fontSize ← getField fields "fontSize" >>= asNum
    pure ⟨id, text, pos, color, fontSize⟩
  | _ => none

/-- Shape-read of a list of text elements. -/
def decodeTextElements : List Json → Option (List TextElement)
  | [] => some []
  | j :: rest => do
    let t ← decodeTextElement j
    let ts ← decodeTextElements rest
    pure (t :: ts)

/-- Shape-read of a `SketchState` per the `sketch-types.ts` declaration: the
shape the load effect's cast `JSON.parse(sketchData) as SketchState` assumes.
The load path itself installs the parsed value verbatim (see `loadDoc`); on
well-shaped values the two views coincide. -/
def decodeState : Json → Option SketchState
  | .obj fields => do
    let ss ← (match getField fields "strokes" with
              | some (.arr js) => decodeStrokes js
              | _ => none)
    let ts ← (match getField fields "textElements" with
              | some (.arr js) => decodeTextElements js
              | _ => none)
    let w ← getField fields "canvasWidth" >>= asNum
    let h ← getField fields "canvasHeight" >>= asNum
    pure ⟨ss, ts, w, h⟩
  | _ => none

/-! ## The load boundary (`SketchPad` load effect, `NotesList.tsx` lines 356-374)

`sketchData` is either `null` (`noData`), a string `JSON.parse` rejects
(`malformed`, the `catch` branch), or a string parsing to the JSON value `j`
(`parsed j`).  On `parsed j` the code installs the raw parsed value with a
type cast and no shape check; the document the component then holds is the
JS value `j` itself.  The state is therefore modelled dynamically, as `Json`. -/

/-- The three shapes of `sketchData` input at the load boundary. -/
inductive LoadInput where
  | noData
  | malformed
  | parsed (j : Json)

/-- The document held in `stateRef` after the load effect: the initial
`createEmptyState(600, 400)` survives when there is no data or the parse
throws; a successfully parsed value is installed verbatim. -/
def loadDoc : LoadInput → Json
  | .noData => serialize (createEmptyState 600 400)
  | .malformed => serialize (createEmptyState 600 400)
  | .parsed j => j

/-! ## History manager and engine state (`NotesList.tsx`)

The component keeps `stateRef` (live document), `historyRef` (snapshots),
`historyIndexRef`, and the `canvasSize` React state mirroring the committed
dimensions.  `EngineState` bundles them.  Snapshots are deep copies
(`JSON.parse(JSON.stringify(..))`); on immutable Lean values a deep copy is
the value itself. -/

/-- The engine state: live document, history entries, history index, and the
`canvasSize` mirror. -/
structure EngineState where
  state : SketchState
  history : List SketchState
  historyIndex : Nat
  canvasSizeW : ℚ
  canvasSizeH : ℚ
deriving DecidableEq, Repr

/-- The initial engine state (`createEmptyState(600, 400)` seeded into
`stateRef`, `historyRef`, `canvasSize`). -/
def initES : EngineState :=
  ⟨createEmptyState 600 400, [createEmptyState 600 400], 0, 600, 400⟩

/-- Transcribes `pushHistory` (`NotesList.tsx` lines 187-200): truncate forward history to
`currentIndex + 1` entries, append a deep-copied snapshot, then either evict
the oldest entry (`shift()`, when the count exceeds `MAX_HISTORY`) without
advancing the index, or advance the index. -/
def pushHistory (entries : List SketchState) (idx : Nat) (st : SketchState) :
    List SketchState × Nat :=
  let t := entries.take (idx + 1) ++ [st]
  if t.length > MAX_HISTORY then (t.tail, idx) else (t, idx + 1)

/-- Engine-level wrapper: commit `st` as the live document and push it. -/
def commitPush (s : EngineState) (st : SketchState) : EngineState :=
  let hi := pushHistory s.history s.historyIndex st
  ⟨st, hi.1, hi.2, s.canvasSizeW, s.canvasSizeH⟩

/-- Transcribes `handleUndo` (`NotesList.tsx` lines 670-679): guard `historyIndex <= 0`,
else decrement, reinstall the snapshot at the new index and mirror its
dimensions into `canvasSize`.  The out-of-bounds `none` branch is unreachable
while `historyIndex < history.length` holds. -/
def handleUndo (s : EngineState) : EngineState :=
  if s.historyIndex ≤ 0 then s
  else
    match s.history.get? (s.historyIndex - 1) with
    | some st => ⟨st, s.history, s.historyIndex - 1, st.canvasWidth, st.canvasHeight⟩
    | none => s

/-- Transcribes `handleRedo` (`NotesList.tsx` lines 682-691): guard
`historyIndex >= history.length - 1`, else increment and reinstall. -/
def handleRedo (s : EngineState) : EngineState :=
  if s.historyIndex ≥ s.history.length - 1 then s
  else
    match s.history.get? (s.historyIndex + 1) with
    | some st => ⟨st, s.history, s.historyIndex + 1, st.canvasWidth, st.canvasHeight⟩
    | none => s

/-- The inline undo logic of the Ctrl/Cmd+Z branch of `handleKeyDown`
(`NotesList.tsx` lines 389-399), transcribed independently of `handleUndo`. -/
def keyboardUndo (s : EngineState) : EngineState :=
  if s.historyIndex ≤ 0 then s
  else
    match s.history.get? (s.historyIndex - 1) with
    | some st => ⟨st, s.history, s.historyIndex - 1, st.canvasWidth, st.canvasHeight⟩
    | none => s

/-- The inline redo logic of the Ctrl/Cmd+Shift+Z branch of `handleKeyDown`
(`NotesList.tsx` lines 400-411), transcribed independently of `handleRedo`. -/
def keyboardRedo (s : EngineState) : EngineState :=
  if s.historyIndex ≥ s.history.length - 1 then s
  else
    match s.history.get? (s.historyIndex + 1) with
    | some st => ⟨st, s.history, s.historyIndex + 1, st.canvasWidth, st.canvasHeight⟩
    | none => s

/-! ## Hit testing (`NotesList.tsx` lines 423-465) -/

/-- Squared Euclidean distance between two world points. -/
def dist2 (a b : Point) : ℚ :=
  (a.x - b.x) * (a.x - b.x) + (a.y - b.y) * (a.y - b.y)

/-- Whether a stroke has any sampled point within the eraser proximity of the
query point.  The source compares `Math.sqrt(dx*dx+dy*dy) <= ERASER_PROXIMITY`;
over `ℚ` this is embedded as the equivalent squared comparison
`dx*dx+dy*dy <= 10*10` (the equivalence over the reals is proved in
`sqrt_le_radius_iff_dist2`). -/
def strokeHit (q : Point) (s : Stroke) : Bool :=
  s.points.any fun pt => dist2 q pt ≤ ERASER_PROXIMITY * ERASER_PROXIMITY

/-- Transcribes `hitTestStroke` (`NotesList.tsx` lines 452-465): iterate strokes from the
most recently inserted to the oldest, returning the first whose sampled points
come within the proximity radius. -/
def hitTestStroke (strokes : List Stroke) (q : Point) : Option Stroke :=
  strokes.reverse.find? (strokeHit q)

/-- Whether the query point lies in a text element's axis-aligned bounding box
`[position.x, position.x + width] × [position.y, position.y + fontSize]`
(`NotesList.tsx` lines 434-444).  `measure text fontSize` stands for the
platform's `ctx.measureText(te.text).width` under the element's font. -/
def textHit (measure : String → ℚ → ℚ) (q : Point) (te : TextElement) : Bool :=
  decide (te.position.x ≤ q.x ∧ q.x ≤ te.position.x + measure te.text te.fontSize ∧
          te.position.y ≤ q.y ∧ q.y ≤ te.position.y + te.fontSize)

/-- Transcribes `hitTestText` (`NotesList.tsx` lines 424-449): iterate text elements in
reverse order (top-most first), returning the first bounding-box containment. -/
def hitTestText (measure : String → ℚ → ℚ) (elems : List TextElement) (q : Point) :
    Option TextElement :=
  elems.reverse.find? (textHit measure q)

/-! ## Pen tool (`handlePointerDown`/`Move`/`Up`, pen branches) -/

/-- Pen pointer-down (`NotesList.tsx` lines 481-483): start the point buffer
with the current world point. -/
def penPointerDown (world : Point) : List Point := [world]

/-- Pen pointer-move (`NotesList.tsx` lines 547-549): append the current world
point to the buffer. -/
def penPointerMove (buffer : List Point) (world : Point) : List Point :=
  buffer ++ [world]

/-- Pen pointer-up or pointer-cancel (`NotesList.tsx` lines 591-609; the
`onPointerCancel` prop is bound to the same handler): with at least two
buffered points, append one new stroke with the active color and
`DEFAULT_PEN_WIDTH` and push once; otherwise discard silently.  `newId` stands
for the `generateId()` result (randomness is external input). -/
def penPointerUp (s : EngineState) (buffer : List Point) (color newId : String) :
    EngineState :=
  if buffer.length ≥ 2 then
    commitPush s { s.state with
      strokes := s.state.strokes ++ [⟨newId, buffer, color, DEFAULT_PEN_WIDTH⟩] }
  else s

/-! ## Eraser tool -/

/-- Document with the strokes of the given id removed
(`strokes.filter(s => s.id !== hitStroke.id)`). -/
def removeStrokeById (d : SketchState) (sid : String) : SketchState :=
  { d with strokes := d.strokes.filter fun s => s.id != sid }

/-- Document with the text elements of the given id removed
(`textElements.filter(t => t.id !== hitText.id)`). -/
def removeTextById (d : SketchState) (tid : String) : SketchState :=
  { d with textElements := d.textElements.filter fun t => t.id != tid }

/-- Eraser pointer-down (`NotesList.tsx` lines 484-510): hit-test strokes
first (remove + one push), else text elements (remove + one push), else start
a continuous-erase drag (`isDrawingRef := true`, returned as the Bool). -/
def eraserPointerDown (measure : String → ℚ → ℚ) (q : Point) (s : EngineState) :
    EngineState × Bool :=
  match hitTestStroke s.state.strokes q with
  | some hitStroke => (commitPush s (removeStrokeById s.state hitStroke.id), false)
  | none =>
    match hitTestText measure s.state.textElements q with
    | some hitText => (commitPush s (removeTextById s.state hitText.id), false)
    | none => (s, true)

/-- Eraser pointer-move (`NotesList.tsx` lines 550-561): only while the drag
flag is set, hit-test strokes only and remove + push on a hit.  Text elements
are never touched here. -/
def eraserPointerMove (q : Point) (s : EngineState) (drawing : Bool) : EngineState :=
  if drawing then
    match hitTestStroke s.state.strokes q with
    | some hitStroke => commitPush s (removeStrokeById s.state hitStroke.id)
    | none => s
  else s

/-- Eraser pointer-up (`handlePointerUp` has no eraser branch beyond clearing
`isDrawingRef`): state unchanged, drag ended, no push. -/
def eraserPointerUp (s : EngineState) : EngineState × Bool := (s, false)

/-! ## Text, move, clear (for the reachability model) -/

/-- Transcribes `commitTextInput` (`NotesList.tsx` lines 620-642): empty or whitespace-only
input discards; otherwise append one text element with the trimmed text, the
active color and `DEFAULT_FONT_SIZE`, and push once. -/
def commitTextInput (s : EngineState) (value : String) (worldX worldY : ℚ)
    (color newId : String) : EngineState :=
  if value.trim = "" then s
  else
    commitPush s { s.state with
      textElements := s.state.textElements ++
        [⟨newId, value.trim, ⟨worldX, worldY⟩, color, DEFAULT_FONT_SIZE⟩] }

/-- Move pointer-move (`NotesList.tsx` lines 562-572): continuously reposition
the dragged element in the live document, with no push. -/
def movePointerMove (s : EngineState) (movingId : String) (offX offY : ℚ)
    (world : Point) : EngineState :=
  { s with state := { s.state with
      textElements := s.state.textElements.map fun te =>
        if te.id = movingId then
          { te with position := ⟨world.x - offX, world.y - offY⟩ }
        else te } }

/-- Move pointer-up (`NotesList.tsx` lines 610-613): one push of the live
document capturing the final position. -/
def movePointerUp (s : EngineState) : EngineState := commitPush s s.state

/-- Transcribes `handleClear` (`NotesList.tsx` lines 694-704): drop all strokes and text
elements, keep the dimensions, push once. -/
def handleClear (s : EngineState) : EngineState :=
  commitPush s { s.state with strokes := [], textElements := [] }

/-! ## Canvas resize (`handleResizePointerDown`, `NotesList.tsx` lines 712-748) -/

/-- Transcribes `handleResizeMove` (lines 723-730) combined with the `setupCanvasSize`
effect that writes the new `canvasSize` into the live document's dimensions
(lines 349-350, 382-384): clamp `start + delta` to the minimums, update
continuously, no push.  `startW`/`startH` are the dimensions captured at drag
start, `dx`/`dy` the pointer delta. -/
def handleResizeMove (s : EngineState) (startW startH dx dy : ℚ) : EngineState :=
  let newWidth := max MIN_CANVAS_WIDTH (startW + dx)
  let newHeight := max MIN_CANVAS_HEIGHT (startH + dy)
  ⟨{ s.state with canvasWidth := newWidth, canvasHeight := newHeight },
   s.history, s.historyIndex, newWidth, newHeight⟩

/-- Transcribes `handleResizeUp` (lines 732-744): write the final `canvasSize` into the
document and notify persistence.  Note: the source calls `notifyChange()` but
never `pushHistory` here. -/
def handleResizeUp (s : EngineState) : EngineState :=
  ⟨{ s.state with canvasWidth := s.canvasSizeW, canvasHeight := s.canvasSizeH },
   s.history, s.historyIndex, s.canvasSizeW, s.canvasSizeH⟩

/-! ## Rendering and export -/

/-- Transcribes `getDisplayColor` (`NotesList.tsx` lines 418-421). -/
def getDisplayColor (color : String) (dark : Bool) : String :=
  if dark && color == "#000000" then "#ffffff" else color

/-- One stroke draw command (path, round caps/joins implied). -/
structure StrokeCmd where
  color : String
  width : ℚ
  points : List Point
deriving DecidableEq, Repr

/-- One text draw command (baseline-top implied). -/
structure TextCmd where
  color : String
  fontSize : ℚ
  text : String
  pos : Point
deriving DecidableEq, Repr

/-- A render pass: background fill, the `setTransform` scale and translation,
and the draw commands in issue order. -/
structure RenderPass where
  background : String
  scale : ℚ
  translateX : ℚ
  translateY : ℚ
  strokeCmds : List StrokeCmd
  textCmds : List TextCmd
deriving DecidableEq, Repr

/-- Transcribes `renderCommitted` (`NotesList.tsx` lines 203-245): theme background,
`setTransform(dpr, 0, 0, dpr, pan.x*dpr, pan.y*dpr)`, strokes with fewer than
two points skipped, every drawn color passed through `getDisplayColor`. -/
def renderCommitted (d : SketchState) (dark : Bool) (pan : Point) (dpr : ℚ) :
    RenderPass :=
  { background := if dark then "#1f2937" else "#ffffff"
    scale := dpr
    translateX := pan.x * dpr
    translateY := pan.y * dpr
    strokeCmds := (d.strokes.filter fun s => s.points.length ≥ 2).map fun s =>
      ⟨getDisplayColor s.color dark, s.width, s.points⟩
    textCmds := d.textElements.map fun te =>
      ⟨getDisplayColor te.color dark, te.fontSize, te.text, te.position⟩ }

/-- The raster export surface: its pixel dimensions and the render pass drawn
onto it. -/
structure ExportSurface where
  width : ℚ
  height : ℚ
  pass : RenderPass
deriving DecidableEq, Repr

/-- The export part of `notifyChange` (`NotesList.tsx` lines 288-327): a fresh
surface of exactly `canvasWidth × canvasHeight`, white background, no
`setTransform` call (identity: scale 1, translation 0 — no pan offset, no
device-pixel-ratio scaling), stored colors used verbatim. -/
def exportRaster (d : SketchState) : ExportSurface :=
  { width := d.canvasWidth
    height := d.canvasHeight
    pass :=
      { background := "#ffffff"
        scale := 1
        translateX := 0
        translateY := 0
        strokeCmds := (d.strokes.filter fun s => s.points.length ≥ 2).map fun s =>
          ⟨s.color, s.width, s.points⟩
        textCmds := d.textElements.map fun te =>
          ⟨te.color, te.fontSize, te.text, te.position⟩ } }

/-! ## Reachable committed engine states -/

/-- Engine states reachable from the initial state through the committed
operations of the source: pen commits, eraser removals, text commits, move
drags and releases, clear, resize drags and releases, undo/redo, and loading a
document that this engine previously serialized (the persistence contract
hands back the engine's own `JSON.stringify` output).  Pan never touches the
engine state.  The load constructor reinstalls whatever deserializing the
persisted tree yields and mirrors its dimensions into `canvasSize`
(`NotesList.tsx` lines 360-371). -/
inductive Reachable : EngineState → Prop where
  | init : Reachable initES
  | pen (s : EngineState) (buffer : List Point) (color newId : String) :
      Reachable s → Reachable (penPointerUp s buffer color newId)
  | eraseDown (s : EngineState) (measure : String → ℚ → ℚ) (q : Point) :
      Reachable s → Reachable (eraserPointerDown measure q s).1
  | eraseMove (s : EngineState) (q : Point) (drawing : Bool) :
      Reachable s → Reachable (eraserPointerMove q s drawing)
  | text (s : EngineState) (value : String) (worldX worldY : ℚ) (color newId : String) :
      Reachable s → Reachable (commitTextInput s value worldX worldY color newId)
  | moveMove (s : EngineState) (movingId : String) (offX offY : ℚ) (world : Point) :
      Reachable s → Reachable (movePointerMove s movingId offX offY world)
  | moveUp (s : EngineState) : Reachable s → Reachable (movePointerUp s)
  | clear (s : EngineState) : Reachable s → Reachable (handleClear s)
  | resizeMove (s : EngineState) (startW startH dx dy : ℚ) :
      Reachable s → Reachable (handleResizeMove s startW startH dx dy)
  | resizeUp (s : EngineState) : Reachable s → Reachable (handleResizeUp s)
  | undo (s : EngineState) : Reachable s → Reachable (handleUndo s)
  | redo (s : EngineState) : Reachable s → Reachable (handleRedo s)
  | load (s : EngineState) (d : SketchState) :
      Reachable s → decodeState (serialize s.state) = some d →
      Reachable ⟨d, [d], 0, d.canvasWidth, d.canvasHeight⟩

/-- The canvas-dimension invariant: at least the configured minimums. -/
def DimsOK (d : SketchState) : Prop :=
  MIN_CANVAS_WIDTH ≤ d.canvasWidth ∧ MIN_CANVAS_HEIGHT ≤ d.canvasHeight

/-- The full engine invariant: the live document, every history entry, and the
`canvasSize` mirror all satisfy the dimension minimums. -/
def EngineInv (s : EngineState) : Prop :=
  DimsOK s.state ∧ (∀ d ∈ s.history, DimsOK d) ∧
    MIN_CANVAS_WIDTH ≤ s.canvasSizeW ∧ MIN_CANVAS_HEIGHT ≤ s.canvasSizeH

/-- A concrete committed stroke used for witness states. -/
def demoStroke : Stroke := ⟨"s1", [⟨0, 0⟩, ⟨5, 0⟩], "#000000", 2⟩

/-- A concrete engine state holding one committed stroke. -/
def demoES : EngineState :=
  ⟨⟨[demoStroke], [], 600, 400⟩, [createEmptyState 600 400], 0, 600, 400⟩

/-! ## Concrete mutation sequence for the history-cap scenario -/

/-- The i-th of a family of pairwise distinct committed documents (the i-th
mutation has committed i strokes). -/
def mutDoc (i : Nat) : SketchState :=
  ⟨List.replicate i ⟨"m", [⟨0, 0⟩, ⟨1, 0⟩], "#000000", 2⟩, [], 600, 400⟩

/-- The history after `n` committed mutations `mutDoc 1 .. mutDoc n` starting
from the freshly seeded history (one empty entry, index 0). -/
def iterPush : Nat → List SketchState × Nat
  | 0 => ([createEmptyState 600 400], 0)
  | n + 1 =>
    let r := iterPush n
    pushHistory r.1 r.2 (mutDoc (n + 1))

/-! ## Round-trip lemmas -/

theorem getField_cons_self (k : String) (v : Json) (rest : List (String × Json)) :
    getField ((k, v) :: rest) k = some v := by
  simp [getField]

theorem decodePoint_encodePoint (p : Point) : decodePoint (encodePoint p) = some p := by
  cases p
  simp [decodePoint, encodePoint, getField, asNum]

theorem decodePoints_map_encodePoint (ps : List Point) :
    decodePoints (ps.map encodePoint) = some ps := by
  induction ps with
  | nil => simp [decodePoints]
  | cons p rest ih => simp [decodePoints, decodePoint_encodePoint, ih]

theorem decodeStroke_encodeStroke (s : Stroke) : decodeStroke (encodeStroke s) = some s := by
  cases s
  simp [decodeStroke, encodeStroke, getField, asStr, asNum, decodePoints_map_encodePoint]

theorem decodeStrokes_map_encodeStroke (ss : List Stroke) :
    decodeStrokes (ss.map encodeStroke) = some ss := by
  induction ss with
  | nil => simp [decodeStrokes]
  | cons s rest ih => simp [decodeStrokes, decodeStroke_encodeStroke, ih]

theorem decodeTextElement_encodeTextElement (t : TextElement) :
    decodeTextElement (encodeTextElement t) = some t := by
  cases t
  simp [decodeTextElement, encodeTextElement, getField, asStr, asNum, decodePoint_encodePoint]

theorem decodeTextElements_map_encodeTextElement (ts : List TextElement) :
    decodeTextElements (ts.map encodeTextElement) = some ts := by
  induction ts with
  | nil => simp [decodeTextElements]
  | cons t rest ih => simp [decodeTextElements, decodeTextElement_encodeTextElement, ih]

/-- Helper: serialization loses nothing; reading the serialized tree back at
the declared document shape restores every field. -/
theorem decodeState_serialize (d : SketchState) : decodeState (serialize d) = some d := by
  cases d
  simp [decodeState, serialize, getField, asNum,
        decodeStrokes_map_encodeStroke, decodeTextElements_map_encodeTextElement]

set_option maxRecDepth 100000

/-! ## General list helpers -/

theorem find?_eq_some_split {α : Type _} {p : α → Bool} :
    ∀ {l : List α} {a : α}, l.find? p = some a →
      p a = true ∧ ∃ l1 l2, l = l1 ++ a :: l2 ∧ ∀ x ∈ l1, p x = false := by
  intro l
  induction l with
  | nil => intro a h; simp [List.find?] at h
  | cons b t ih =>
    intro a h
    cases hb : p b with
    | true =>
      rw [List.find?_cons_of_pos _ hb] at h
      obtain rfl : b = a := by injection h
      exact ⟨hb, [], t, rfl, by intro x hx; simp at hx⟩
    | false =>
      rw [List.find?_cons_of_neg _ (by simp [hb])] at h
      obtain ⟨hpa, l1, l2, rfl, hall⟩ := ih h
      refine ⟨hpa, b :: l1, l2, rfl, ?_⟩
      intro x hx
      rcases List.mem_cons.mp hx with rfl | hx'
      · exact hb
      · exact hall x hx'

theorem reverse_find?_split {α : Type _} {p : α → Bool} {l : List α} {a : α}
    (h : l.reverse.find? p = some a) :
    p a = true ∧ ∃ pre post, l = pre ++ a :: post ∧ ∀ x ∈ post, p x = false := by
  obtain ⟨hpa, l1, l2, hsplit, hall⟩ := find?_eq_some_split h
  refine ⟨hpa, l2.reverse, l1.reverse, ?_, ?_⟩
  · have h2 := congrArg List.reverse hsplit
    simpa [List.reverse_append] using h2
  · intro x hx
    exact hall x (by simpa using hx)

theorem filter_bne_key_middle {α : Type _} (key : α → String) (l1 l2 : List α) (a : α)
    (hnd : ((l1 ++ a :: l2).map key).Nodup) :
    (l1 ++ a :: l2).filter (fun x => key x != key a) = l1 ++ l2 := by
  have hnd' : (l1.map key ++ key a :: l2.map key).Nodup := by
    simpa using hnd
  have hmid : (key a :: (l1.map key ++ l2.map key)).Nodup := List.nodup_middle.mp hnd'
  have hnotmem : key a ∉ l1.map key ++ l2.map key := (List.nodup_cons.mp hmid).1
  have hne : ∀ x ∈ l1 ++ l2, key x ≠ key a := by
    intro x hx he
    apply hnotmem
    rw [← he]
    rcases List.mem_append.mp hx with hx1 | hx2
    · exact List.mem_append_left _ (List.mem_map_of_mem key hx1)
    · exact List.mem_append_right _ (List.mem_map_of_mem key hx2)
  rw [List.filter_append, List.filter_cons]
  have hfa : (key a != key a) = false := by simp
  rw [hfa]
  simp only [Bool.false_eq_true, if_false]
  have hl1 : l1.filter (fun x => key x != key a) = l1 := by
    apply List.filter_eq_self.mpr
    intro x hx
    simpa [bne_iff_ne] using hne x (List.mem_append_left _ hx)
  have hl2 : l2.filter (fun x => key x != key a) = l2 := by
    apply List.filter_eq_self.mpr
    intro x hx
    simpa [bne_iff_ne] using hne x (List.mem_append_right _ hx)
  rw [hl1, hl2]

theorem mem_pushHistory {e : List SketchState} {i : Nat} {d y : SketchState}
    (h : y ∈ (pushHistory e i d).1) : y ∈ e ∨ y = d := by
  have hsub : y ∈ e.take (i + 1) ++ [d] := by
    by_cases hc : (e.take (i + 1) ++ [d]).length > MAX_HISTORY
    · simp only [pushHistory, if_pos hc] at h
      exact List.mem_of_mem_tail h
    · simpa only [pushHistory, if_neg hc] using h
  rcases List.mem_append.mp hsub with h1 | h2
  · exact Or.inl (List.mem_of_mem_take h1)
  · exact Or.inr (by simpa using h2)

/-! ## Claim theorems -/

/-- C1: serialization round trip — for every document, reading the tree built
by `serialize` back at the declared `SketchState` shape restores the document
field-for-field, element ids, coordinates, colors, widths and font sizes
included. -/
theorem c1_serialize_roundtrip : ∀ d : SketchState, decodeState (serialize d) = some d :=
  fun d => decodeState_serialize d

/-- C2 (amended): when `sketchData` is absent or `JSON.parse` rejects it, the
load boundary never raises (it is total) and the engine keeps the default
empty document at the default 600×400 size; but a string that parses to JSON
of the wrong shape is installed as the document verbatim, with no shape
check. -/
theorem c2_load_parse_failure_defaults :
    (loadDoc LoadInput.noData = serialize (createEmptyState 600 400)) ∧
    (loadDoc LoadInput.malformed = serialize (createEmptyState 600 400)) ∧
    (∀ j : Json, loadDoc (LoadInput.parsed j) = j) :=
  ⟨rfl, rfl, fun _ => rfl⟩

/-- C2 counterexample: the JSON value `5` (the parse of the string "5") is not
of the document shape, yet the load boundary installs it verbatim instead of
degrading to the default empty document. -/
theorem c2_counterexample :
    decodeState (Json.num 5) = none ∧
    loadDoc (LoadInput.parsed (Json.num 5)) ≠ serialize (createEmptyState 600 400) := by
  refine ⟨rfl, ?_⟩
  intro h
  exact Json.noConfusion h

/-- C4: `handleUndo` is a no-op at index 0 and `handleRedo` is a no-op at the
last entry (neither errors); from any committed state (live document equal to
the active entry, `canvasSize` mirroring it), undo followed by redo restores
the exact prior engine state, element ids included. -/
theorem c4_undo_redo_symmetry (s : EngineState) (hinv : s.historyIndex < s.history.length) :
    (s.historyIndex = 0 → handleUndo s = s) ∧
    (s.historyIndex = s.history.length - 1 → handleRedo s = s) ∧
    (1 ≤ s.historyIndex → s.history.get? s.historyIndex = some s.state →
      s.canvasSizeW = s.state.canvasWidth → s.canvasSizeH = s.state.canvasHeight →
      handleRedo (handleUndo s) = s) := by
  obtain ⟨st, hist, idx, w, h⟩ := s
  simp only at hinv ⊢
  refine ⟨?_, ?_, ?_⟩
  · intro h0
    subst h0
    simp [handleUndo]
  · intro hl
    unfold handleRedo
    rw [if_pos (by simp only; omega)]
  · intro h1 hst hw hh
    have hlt : idx - 1 < hist.length := by omega
    obtain ⟨d, hd⟩ : ∃ d, hist.get? (idx - 1) = some d := by
      rw [List.get?_eq_get hlt]
      exact ⟨_, rfl⟩
    have hu : handleUndo ⟨st, hist, idx, w, h⟩ =
        ⟨d, hist, idx - 1, d.canvasWidth, d.canvasHeight⟩ := by
      unfold handleUndo
      rw [if_neg (by simp only; omega)]
      simp only [hd]
    rw [hu]
    unfold handleRedo
    rw [if_neg (by simp only; omega)]
    have hidx : idx - 1 + 1 = idx := by omega
    simp only [hidx, hst, hw, hh]

/-- C4 witness: undo then redo restores a concrete two-entry committed
state exactly. -/
theorem c4_witness :
    handleRedo (handleUndo ⟨createEmptyState 300 300,
      [createEmptyState 600 400, createEmptyState 300 300], 1, 300, 300⟩) =
    ⟨createEmptyState 300 300, [createEmptyState 600 400, createEmptyState 300 300],
      1, 300, 300⟩ :=
  (c4_undo_redo_symmetry _ (by decide)).2.2 (by decide) rfl rfl rfl

/-- C5: pen finalize threshold — with at least two buffered points, pointer-up
(or pointer-cancel, bound to the same handler) appends exactly one stroke with
the active color and the fixed `DEFAULT_PEN_WIDTH` and performs exactly one
history push of the new document; with fewer than two points the engine state
is unchanged, in particular for a pointer-down immediately followed by
pointer-up. -/
theorem c5_pen_commit_threshold (s : EngineState) (buffer : List Point) (color newId : String) :
    (2 ≤ buffer.length →
      penPointerUp s buffer color newId =
        commitPush s { s.state with
          strokes := s.state.strokes ++ [⟨newId, buffer, color, DEFAULT_PEN_WIDTH⟩] } ∧
      (penPointerUp s buffer color newId).state.strokes =
        s.state.strokes ++ [⟨newId, buffer, color, DEFAULT_PEN_WIDTH⟩] ∧
      (penPointerUp s buffer color newId).history =
        (pushHistory s.history s.historyIndex (penPointerUp s buffer color newId).state).1 ∧
      (penPointerUp s buffer color newId).historyIndex =
        (pushHistory s.history s.historyIndex (penPointerUp s buffer color newId).state).2 ∧
      (penPointerUp s buffer color newId).state.textElements = s.state.textElements ∧
      (penPointerUp s buffer color newId).state.canvasWidth = s.state.canvasWidth ∧
      (penPointerUp s buffer color newId).state.canvasHeight = s.state.canvasHeight) ∧
    (buffer.length < 2 → penPointerUp s buffer color newId = s) ∧
    (∀ p : Point, penPointerUp s (penPointerDown p) color newId = s) := by
  refine ⟨?_, ?_, ?_⟩
  · intro hlen
    have hup : penPointerUp s buffer color newId =
        commitPush s { s.state with
          strokes := s.state.strokes ++ [⟨newId, buffer, color, DEFAULT_PEN_WIDTH⟩] } := by
      unfold penPointerUp
      rw [if_pos hlen]
    refine ⟨hup, ?_, ?_, ?_, ?_, ?_, ?_⟩ <;> rw [hup] <;> rfl
  · intro hlen
    unfold penPointerUp
    rw [if_neg (by omega)]
  · intro p
    unfold penPointerUp penPointerDown
    rw [if_neg (by simp)]

/-- C5 witness: a two-point buffer commits exactly one stroke onto the empty
document. -/
theorem c5_witness :
    (penPointerUp initES [⟨0, 0⟩, ⟨1, 1⟩] "#000000" "id1").state.strokes =
      [⟨"id1", [⟨0, 0⟩, ⟨1, 1⟩], "#000000", DEFAULT_PEN_WIDTH⟩] := by
  have h := (c5_pen_commit_threshold initES [⟨0, 0⟩, ⟨1, 1⟩] "#000000" "id1").1 (by decide)
  simpa [initES, createEmptyState] using h.2.1

/-- C7 (amended): during a resize drag the canvas dimensions update
continuously, clamped to the 200×150 minimums rather than rejected, with no
history push; on release the final dimensions are written into the document
and handed to persistence, but no history push occurs either. -/
theorem c7_resize_clamp_no_push (s : EngineState) (startW startH dx dy : ℚ) :
    ((handleResizeMove s startW startH dx dy).canvasSizeW =
      max MIN_CANVAS_WIDTH (startW + dx)) ∧
    ((handleResizeMove s startW startH dx dy).canvasSizeH =
      max MIN_CANVAS_HEIGHT (startH + dy)) ∧
    ((handleResizeMove s startW startH dx dy).state.canvasWidth =
      max MIN_CANVAS_WIDTH (startW + dx)) ∧
    ((handleResizeMove s startW startH dx dy).state.canvasHeight =
      max MIN_CANVAS_HEIGHT (startH + dy)) ∧
    (MIN_CANVAS_WIDTH ≤ (handleResizeMove s startW startH dx dy).state.canvasWidth) ∧
    (MIN_CANVAS_HEIGHT ≤ (handleResizeMove s startW startH dx dy).state.canvasHeight) ∧
    ((handleResizeMove s startW startH dx dy).history = s.history) ∧
    ((handleResizeMove s startW startH dx dy).historyIndex = s.historyIndex) ∧
    ((handleResizeUp s).state.canvasWidth = s.canvasSizeW) ∧
    ((handleResizeUp s).state.canvasHeight = s.canvasSizeH) ∧
    ((handleResizeUp s).state.strokes = s.state.strokes) ∧
    ((handleResizeUp s).state.textElements = s.state.textElements) ∧
    ((handleResizeUp s).history = s.history) ∧
    ((handleResizeUp s).historyIndex = s.historyIndex) := by
  refine ⟨rfl, rfl, rfl, rfl, le_max_left _ _, le_max_left _ _, rfl, rfl,
    rfl, rfl, rfl, rfl, rfl, rfl⟩

/-- C7 counterexample: a concrete resize drag and release leaves the history
exactly as it was — the release performs no history push, so the history is
not the result of pushing the resized document. -/
theorem c7_counterexample :
    (handleResizeUp (handleResizeMove initES 600 400 100 50)).history =
      (handleResizeMove initES 600 400 100 50).history ∧
    (handleResizeUp (handleResizeMove initES 600 400 100 50)).history ≠
      (pushHistory (handleResizeMove initES 600 400 100 50).history
        (handleResizeMove initES 600 400 100 50).historyIndex
        (handleResizeUp (handleResizeMove initES 600 400 100 50)).state).1 := by
  exact ⟨rfl, by decide⟩

/-- C9: presentation/export color split — the committed render substitutes
white for stored pure black exactly when the theme is dark and renders every
other stored color unchanged, while the raster export uses stored colors
verbatim on a white background sized exactly `canvasWidth × canvasHeight`, at
scale 1 with zero translation (no pan, no device-pixel-ratio scaling); the
substitution lives only in the emitted draw commands, never in the stored
document. -/
theorem c9_color_presentation_split (d : SketchState) (dark : Bool) (pan : Point) (dpr : ℚ) :
    (getDisplayColor "#000000" true = "#ffffff") ∧
    (∀ c : String, c ≠ "#000000" → getDisplayColor c dark = c) ∧
    (∀ c : String, getDisplayColor c false = c) ∧
    (∀ st ∈ d.strokes, 2 ≤ st.points.length →
      StrokeCmd.mk (getDisplayColor st.color dark) st.width st.points ∈
        (renderCommitted d dark pan dpr).strokeCmds) ∧
    (∀ te ∈ d.textElements,
      TextCmd.mk (getDisplayColor te.color dark) te.fontSize te.text te.position ∈
        (renderCommitted d dark pan dpr).textCmds) ∧
    ((exportRaster d).width = d.canvasWidth ∧ (exportRaster d).height = d.canvasHeight) ∧
    ((exportRaster d).pass.background = "#ffffff") ∧
    ((exportRaster d).pass.scale = 1 ∧ (exportRaster d).pass.translateX = 0 ∧
      (exportRaster d).pass.translateY = 0) ∧
    ((exportRaster d).pass.strokeCmds =
      (d.strokes.filter fun st => st.points.length ≥ 2).map fun st =>
        ⟨st.color, st.width, st.points⟩) ∧
    ((exportRaster d).pass.textCmds = d.textElements.map fun te =>
      ⟨te.color, te.fontSize, te.text, te.position⟩) := by
  refine ⟨rfl, ?_, ?_, ?_, ?_, ⟨rfl, rfl⟩, rfl, ⟨rfl, rfl, rfl⟩, rfl, rfl⟩
  · intro c hc
    simp [getDisplayColor, hc]
  · intro c
    simp [getDisplayColor]
  · intro st hmem hlen
    apply List.mem_map_of_mem
    exact List.mem_filter.mpr ⟨hmem, by simpa using hlen⟩
  · intro te hmem
    exact List.mem_map_of_mem _ hmem

/-- C9 witness: a committed black stroke renders white under the dark theme. -/
theorem c9_witness :
    StrokeCmd.mk "#ffffff" DEFAULT_PEN_WIDTH [⟨0, 0⟩, ⟨1, 0⟩] ∈
      (renderCommitted ⟨[⟨"s1", [⟨0, 0⟩, ⟨1, 0⟩], "#000000", DEFAULT_PEN_WIDTH⟩], [], 600, 400⟩
        true ⟨0, 0⟩ 1).strokeCmds := by
  have h := (c9_color_presentation_split
    ⟨[⟨"s1", [⟨0, 0⟩, ⟨1, 0⟩], "#000000", DEFAULT_PEN_WIDTH⟩], [], 600, 400⟩
    true ⟨0, 0⟩ 1).2.2.2.1
    ⟨"s1", [⟨0, 0⟩, ⟨1, 0⟩], "#000000", DEFAULT_PEN_WIDTH⟩ (by simp) (by simp)
  simpa [getDisplayColor] using h

/-- C10: the inline keyboard shortcut paths (Ctrl/Cmd+Z, Ctrl/Cmd+Shift+Z)
are extensionally equal to the toolbar `handleUndo`/`handleRedo` on every
engine state: same history index, same live document, same canvas size. -/
theorem c10_keyboard_equals_toolbar : ∀ s : EngineState,
    keyboardUndo s = handleUndo s ∧ keyboardRedo s = handleRedo s :=
  fun _ => ⟨rfl, rfl⟩

/-- C3: `pushHistory` — under the documented history invariant
(`index < count ≤ 50`), the push makes the new snapshot the active entry with
the index at the last position (so a following redo is a no-op, which is the
redo-branch truncation consequence), keeps the count within the cap, appends
after truncating the redo branch when below the cap, and at the cap evicts
exactly the single oldest entry without advancing the index; consequently 51
distinct committed mutations from the freshly seeded history leave exactly 50
entries with the current entry reflecting the last mutation. -/
theorem c3_push_truncate_append_cap (entries : List SketchState) (idx : Nat) (d : SketchState)
    (hidx : idx < entries.length) (hlen : entries.length ≤ MAX_HISTORY) :
    ((pushHistory entries idx d).1.get? (pushHistory entries idx d).2 = some d) ∧
    ((pushHistory entries idx d).2 = (pushHistory entries idx d).1.length - 1) ∧
    ((pushHistory entries idx d).1.length ≤ MAX_HISTORY) ∧
    (idx < 49 → pushHistory entries idx d = (entries.take (idx + 1) ++ [d], idx + 1)) ∧
    (idx = 49 → pushHistory entries idx d = (entries.tail ++ [d], 49)) ∧
    (∀ w h : ℚ,
      handleRedo ⟨d, (pushHistory entries idx d).1, (pushHistory entries idx d).2, w, h⟩ =
        ⟨d, (pushHistory entries idx d).1, (pushHistory entries idx d).2, w, h⟩) ∧
    ((iterPush 51).1.length = MAX_HISTORY ∧
      (iterPush 51).1.get? (iterPush 51).2 = some (mutDoc 51)) ∧
    (∀ i j : Nat, i < j → mutDoc i ≠ mutDoc j) := by
  have h50 : MAX_HISTORY = 50 := rfl
  have hmut : ∀ i j : Nat, i < j → mutDoc i ≠ mutDoc j := by
    intro i j hij heq
    have h2 : (mutDoc i).strokes.length = (mutDoc j).strokes.length := by rw [heq]
    simp only [mutDoc, List.length_replicate] at h2
    omega
  have hiter : (iterPush 51).1.length = MAX_HISTORY ∧
      (iterPush 51).1.get? (iterPush 51).2 = some (mutDoc 51) := ⟨by decide, by decide⟩
  have htake : (entries.take (idx + 1)).length = idx + 1 := by
    rw [List.length_take]
    exact inf_eq_left.mpr (by omega)
  have ht : (entries.take (idx + 1) ++ [d]).length = idx + 2 := by
    simp [htake]
  by_cases hcap : idx + 2 ≤ MAX_HISTORY
  · have hpush : pushHistory entries idx d = (entries.take (idx + 1) ++ [d], idx + 1) := by
      simp only [pushHistory]
      rw [if_neg (by rw [ht]; omega)]
    have hget : (entries.take (idx + 1) ++ [d]).get? (idx + 1) = some d := by
      have h2 := List.get?_concat_length (entries.take (idx + 1)) d
      rwa [htake] at h2
    refine ⟨?_, ?_, ?_, ?_, ?_, ?_, hiter, hmut⟩
    · rw [hpush]; exact hget
    · rw [hpush]
      show idx + 1 = (entries.take (idx + 1) ++ [d]).length - 1
      omega
    · rw [hpush]
      show (entries.take (idx + 1) ++ [d]).length ≤ MAX_HISTORY
      omega
    · intro _; exact hpush
    · intro h49; omega
    · intro w h
      unfold handleRedo
      rw [if_pos (by simp only [hpush]; omega)]
  · have hidx49 : idx = 49 := by omega
    have hlen50 : entries.length = 50 := by omega
    obtain ⟨e0, erest, rfl⟩ : ∃ e0 erest, entries = e0 :: erest := by
      cases entries with
      | nil => simp at hlen50
      | cons a t => exact ⟨a, t, rfl⟩
    have hrest : erest.length = 49 := by simpa using hlen50
    have htail : ((e0 :: erest).take (idx + 1) ++ [d]).tail = erest ++ [d] := by
      rw [List.take_of_length_le (by omega)]
      rfl
    have hpush : pushHistory (e0 :: erest) idx d = (erest ++ [d], 49) := by
      simp only [pushHistory]
      rw [if_pos (by rw [ht]; omega), htail, hidx49]
    have hlapp : (erest ++ [d]).length = 50 := by simp [hrest]
    have hget : (erest ++ [d]).get? 49 = some d := by
      have h2 := List.get?_concat_length erest d
      rwa [hrest] at h2
    refine ⟨?_, ?_, ?_, ?_, ?_, ?_, hiter, hmut⟩
    · rw [hpush]; exact hget
    · rw [hpush]
      show (49 : Nat) = (erest ++ [d]).length - 1
      omega
    · rw [hpush]
      show (erest ++ [d]).length ≤ MAX_HISTORY
      omega
    · intro h49; omega
    · intro _; rw [hpush]; rfl
    · intro w h
      unfold handleRedo
      rw [if_pos (by simp only [hpush]; omega)]

/-- C3 witness: pushing the first mutation onto the freshly seeded history
makes it the active entry. -/
theorem c3_witness :
    (pushHistory [createEmptyState 600 400] 0 (mutDoc 1)).1.get?
      (pushHistory [createEmptyState 600 400] 0 (mutDoc 1)).2 = some (mutDoc 1) :=
  (c3_push_truncate_append_cap [createEmptyState 600 400] 0 (mutDoc 1)
    (by decide) (by decide)).1

/-- C6: eraser behaviour — the squared proximity test embeds the Euclidean
distance-10 test; a stationary pointer-down removes, with one history push,
the most-recently-inserted stroke with any sampled point within the radius
(exactly that stroke when ids are unique); failing that, the
most-recently-inserted text element whose bounding box contains the point;
failing both, a continuous-erase drag begins during which only strokes are
re-tested and removed (text elements never are), one push per removal, and
pointer-up ends the drag with no extra push. -/
theorem c6_eraser_hit_rules (measure : String → ℚ → ℚ) (q : Point) (s : EngineState) :
    (∀ a b : Point, dist2 a b ≤ ERASER_PROXIMITY * ERASER_PROXIMITY ↔
      Real.sqrt (((a.x : ℝ) - b.x) ^ 2 + ((a.y : ℝ) - b.y) ^ 2) ≤ (ERASER_PROXIMITY : ℝ)) ∧
    (∀ (strokes : List Stroke) (st : Stroke), hitTestStroke strokes q = some st →
      strokeHit q st = true ∧
      ∃ pre post, strokes = pre ++ st :: post ∧ ∀ y ∈ post, strokeHit q y = false) ∧
    (∀ st : Stroke, hitTestStroke s.state.strokes q = some st →
      eraserPointerDown measure q s = (commitPush s (removeStrokeById s.state st.id), false)) ∧
    (∀ (d : SketchState) (pre post : List Stroke) (st : Stroke),
      d.strokes = pre ++ st :: post → (d.strokes.map Stroke.id).Nodup →
      (removeStrokeById d st.id).strokes = pre ++ post) ∧
    (∀ (elems : List TextElement) (te : TextElement), hitTestText measure elems q = some te →
      textHit measure q te = true ∧
      ∃ pre post, elems = pre ++ te :: post ∧ ∀ y ∈ post, textHit measure q y = false) ∧
    (∀ te : TextElement, hitTestStroke s.state.strokes q = none →
      hitTestText measure s.state.textElements q = some te →
      eraserPointerDown measure q s = (commitPush s (removeTextById s.state te.id), false)) ∧
    (∀ (d : SketchState) (pre post : List TextElement) (te : TextElement),
      d.textElements = pre ++ te :: post → (d.textElements.map TextElement.id).Nodup →
      (removeTextById d te.id).textElements = pre ++ post) ∧
    (∀ (d : SketchState) (i : String),
      (removeStrokeById d i).textElements = d.textElements ∧
      (removeTextById d i).strokes = d.strokes) ∧
    (hitTestStroke s.state.strokes q = none →
      hitTestText measure s.state.textElements q = none →
      eraserPointerDown measure q s = (s, true)) ∧
    (∀ (q2 : Point) (drawing : Bool),
      (eraserPointerMove q2 s drawing).state.textElements = s.state.textElements) ∧
    (∀ (q2 : Point) (st : Stroke), hitTestStroke s.state.strokes q2 = some st →
      eraserPointerMove q2 s true = commitPush s (removeStrokeById s.state st.id)) ∧
    (∀ q2 : Point, hitTestStroke s.state.strokes q2 = none →
      eraserPointerMove q2 s true = s) ∧
    (∀ q2 : Point, eraserPointerMove q2 s false = s) ∧
    (eraserPointerUp s = (s, false)) := by
  refine ⟨?_, ?_, ?_, ?_, ?_, ?_, ?_, ?_, ?_, ?_, ?_, ?_, ?_, rfl⟩
  · intro a b
    have he : ((a.x : ℝ) - b.x) ^ 2 + ((a.y : ℝ) - b.y) ^ 2 = ((dist2 a b : ℚ) : ℝ) := by
      unfold dist2
      push_cast
      ring
    have h3 : ((ERASER_PROXIMITY : ℚ) : ℝ) ^ 2 =
        ((ERASER_PROXIMITY * ERASER_PROXIMITY : ℚ) : ℝ) := by
      push_cast
      ring
    rw [he, Real.sqrt_le_iff]
    constructor
    · intro h
      refine ⟨by norm_num [ERASER_PROXIMITY], ?_⟩
      rw [h3]
      exact_mod_cast h
    · rintro ⟨-, h⟩
      rw [h3] at h
      exact_mod_cast h
  · intro strokes st h
    exact reverse_find?_split (by simpa [hitTestStroke] using h)
  · intro st h
    simp only [eraserPointerDown, h]
  · intro d pre post st hsplit hnd
    have h2 := filter_bne_key_middle Stroke.id pre post st (by rw [← hsplit]; exact hnd)
    simp only [removeStrokeById]
    rw [hsplit]
    exact h2
  · intro elems te h
    exact reverse_find?_split (by simpa [hitTestText] using h)
  · intro te h1 h2
    simp only [eraserPointerDown, h1, h2]
  · intro d pre post te hsplit hnd
    have h2 := filter_bne_key_middle TextElement.id pre post te (by rw [← hsplit]; exact hnd)
    simp only [removeTextById]
    rw [hsplit]
    exact h2
  · intro d i
    exact ⟨rfl, rfl⟩
  · intro h1 h2
    simp only [eraserPointerDown, h1, h2]
  · intro q2 drawing
    cases drawing with
    | false => rfl
    | true =>
      simp only [eraserPointerMove]
      cases hh : hitTestStroke s.state.strokes q2 with
      | none => rfl
      | some st => rfl
  · intro q2 st h
    simp [eraserPointerMove, h]
  · intro q2 h
    simp [eraserPointerMove, h]
  · intro q2
    rfl

/-- C6 witness: a stationary eraser click at the start point of the single
committed stroke removes it with one push and starts no drag. -/
theorem c6_witness :
    eraserPointerDown (fun _ _ => 0) ⟨0, 0⟩ demoES =
      (commitPush demoES (removeStrokeById demoES.state "s1"), false) := by
  have h := (c6_eraser_hit_rules (fun _ _ => 0) ⟨0, 0⟩ demoES).2.2.1 demoStroke
    (by norm_num [hitTestStroke, demoES, demoStroke, strokeHit, dist2,
      ERASER_PROXIMITY, List.find?])
  simpa [demoStroke] using h

theorem dimsOK_commitPush {s : EngineState} {st : SketchState}
    (h : EngineInv s) (hst : DimsOK st) : EngineInv (commitPush s st) := by
  refine ⟨hst, ?_, h.2.2.1, h.2.2.2⟩
  intro d hd
  rcases mem_pushHistory hd with hmem | rfl
  · exact h.2.1 d hmem
  · exact hst

theorem reachable_engineInv : ∀ s : EngineState, Reachable s → EngineInv s := by
  intro s h
  induction h with
  | init =>
    refine ⟨⟨?_, ?_⟩, ?_, ?_, ?_⟩ <;>
      norm_num [initES, createEmptyState, DimsOK, MIN_CANVAS_WIDTH, MIN_CANVAS_HEIGHT]
  | pen s buffer color newId hr ih =>
    by_cases hb : buffer.length ≥ 2
    · unfold penPointerUp
      rw [if_pos hb]
      exact dimsOK_commitPush ih ih.1
    · unfold penPointerUp
      rw [if_neg hb]
      exact ih
  | eraseDown s measure q hr ih =>
    rcases h1 : hitTestStroke s.state.strokes q with _ | st
    · rcases h2 : hitTestText measure s.state.textElements q with _ | te
      · simp only [eraserPointerDown, h1, h2]
        exact ih
      · simp only [eraserPointerDown, h1, h2]
        exact dimsOK_commitPush ih ih.1
    · simp only [eraserPointerDown, h1]
      exact dimsOK_commitPush ih ih.1
  | eraseMove s q drawing hr ih =>
    cases drawing with
    | false => exact ih
    | true =>
      rcases h1 : hitTestStroke s.state.strokes q with _ | st
      · simp [eraserPointerMove, h1]
        exact ih
      · simp [eraserPointerMove, h1]
        exact dimsOK_commitPush ih ih.1
  | text s value worldX worldY color newId hr ih =>
    by_cases hv : value.trim = ""
    · unfold commitTextInput
      rw [if_pos hv]
      exact ih
    · unfold commitTextInput
      rw [if_neg hv]
      exact dimsOK_commitPush ih ih.1
  | moveMove s movingId offX offY world hr ih =>
    exact ⟨ih.1, ih.2.1, ih.2.2.1, ih.2.2.2⟩
  | moveUp s hr ih =>
    exact dimsOK_commitPush ih ih.1
  | clear s hr ih =>
    exact dimsOK_commitPush ih ih.1
  | resizeMove s startW startH dx dy hr ih =>
    exact ⟨⟨le_max_left _ _, le_max_left _ _⟩, ih.2.1, le_max_left _ _, le_max_left _ _⟩
  | resizeUp s hr ih =>
    exact ⟨⟨ih.2.2.1, ih.2.2.2⟩, ih.2.1, ih.2.2.1, ih.2.2.2⟩
  | undo s hr ih =>
    by_cases h0 : s.historyIndex ≤ 0
    · unfold handleUndo
      rw [if_pos h0]
      exact ih
    · unfold handleUndo
      rw [if_neg h0]
      rcases hget : s.history.get? (s.historyIndex - 1) with _ | st
      · simp only [hget]
        exact ih
      · simp only [hget]
        have hd := ih.2.1 st (List.get?_mem hget)
        exact ⟨hd, ih.2.1, hd.1, hd.2⟩
  | redo s hr ih =>
    by_cases h0 : s.historyIndex ≥ s.history.length - 1
    · unfold handleRedo
      rw [if_pos h0]
      exact ih
    · unfold handleRedo
      rw [if_neg h0]
      rcases hget : s.history.get? (s.historyIndex + 1) with _ | st
      · simp only [hget]
        exact ih
      · simp only [hget]
        have hd := ih.2.1 st (List.get?_mem hget)
        exact ⟨hd, ih.2.1, hd.1, hd.2⟩
  | load s d hr hdec ih =>
    have hds : d = s.state := by
      have h2 := decodeState_serialize s.state
      rw [hdec] at h2
      exact Option.some.inj h2
    subst hds
    refine ⟨ih.1, ?_, ih.1.1, ih.1.2⟩
    intro x hx
    have hx' : x = s.state := by simpa using hx
    subst hx'
    exact ih.1

/-- C8: canvas-size invariant — in every committed engine state reachable
through the engine's operations (tool commits, resize, undo/redo, and loading
a document the engine itself serialized), the live document's dimensions never
drop below the 200×150 minimums. -/
theorem c8_canvas_minimums_invariant (s : EngineState) (h : Reachable s) :
    MIN_CANVAS_WIDTH ≤ s.state.canvasWidth ∧ MIN_CANVAS_HEIGHT ≤ s.state.canvasHeight :=
  (reachable_engineInv s h).1

/-- C8 witness: the invariant at the initial reachable state. -/
theorem c8_witness :
    MIN_CANVAS_WIDTH ≤ initES.state.canvasWidth ∧
      MIN_CANVAS_HEIGHT ≤ initES.state.canvasHeight :=
  c8_canvas_minimums_invariant initES Reachable.init

end Sketch
